import Mathlib

/-!
Verification of the `ouch` command orchestration module (`src/commands/mod.rs`)
and the legacy `Evaluator` dispatcher (`src/evaluator.rs`).

The embedding models the control flow of `run` as a pure function over an
environment record that carries the results of the external collaborators
(the `check`, `extension`, `utils`, `compress`, `decompress`, `list` modules,
which are not part of the given sources).  Side effects that matter to the
claims (messages sent, the mime-type confirmation, deletion of a partial
output, the shutdown-barrier wait, per-file work items) are recorded in an
explicit effect trace.
-/

namespace Ouch

/-- Severity of a diagnostic message, from `utils::message::MessageLevel`. -/
inductive MessageLevel
  | Info
  | Warning
deriving DecidableEq, Repr

/-- Diagnostic message sent on the log channel, from `utils::message::PrintMessage`. -/
structure PrintMessage where
  contents : String
  accessible : Bool
  level : MessageLevel
deriving DecidableEq, Repr

/-- Color escape strings from `utils::colors` (module not in the given sources);
kept abstract as parameters of the formatting routine. -/
structure Colors where
  YELLOW : String
  ORANGE : String
  RESET : String
deriving DecidableEq, Repr

/-- Formatting of one diagnostic message, from the nested `map_message`
function of the logger thread in `run` (src/commands/mod.rs lines 89-112).
`accessibleMode` is the result of `is_running_in_accessible_mode()`.
Note the `Warning` arms format only the colored prefix and a trailing
space; `msg.contents` is not part of the produced string. -/
def map_message (c : Colors) (accessibleMode : Bool) (msg : PrintMessage) : Option String :=
  match msg.level with
  | MessageLevel.Info =>
    if msg.accessible then
      if accessibleMode then
        some (c.YELLOW ++ "Info:" ++ c.RESET ++ " " ++ msg.contents)
      else
        some (c.YELLOW ++ "[INFO]" ++ c.RESET ++ " " ++ msg.contents)
    else if !accessibleMode then
      some (c.YELLOW ++ "[INFO]" ++ c.RESET ++ " " ++ msg.contents)
    else
      none
  | MessageLevel.Warning =>
    if accessibleMode then
      some (c.ORANGE ++ "Warning:" ++ c.RESET ++ " ")
    else
      some (c.ORANGE ++ "[WARNING]" ++ c.RESET ++ " ")

/-- Capacity of the logger thread buffer (`BUFFER_SIZE` in `run`). -/
def BUFFER_SIZE : Nat := 10

/-- One iteration of the logger thread receive loop on a successfully received
message (src/commands/mod.rs lines 118-132).  Returns the new buffer and,
when a flush happened, the single line printed by `println!`.
When the buffer is full, the joined buffer has the newly formatted message
appended directly via `push_str` (no separator), is printed as one write,
and the buffer is cleared; otherwise the formatted message (if shown)
is appended to the buffer. -/
def logger_step (c : Colors) (accessibleMode : Bool) (buffer : List String)
    (msg : PrintMessage) : List String × Option String :=
  if buffer.length = BUFFER_SIZE then
    let tmp := String.intercalate "\n" buffer
    let tmp :=
      match map_message c accessibleMode msg with
      | some m => tmp ++ m
      | none => tmp
    ([], some tmp)
  else
    match map_message c accessibleMode msg with
    | some m => (buffer ++ [m], none)
    | none => (buffer, none)

/-- Final flush of the logger thread when all senders have been dropped
(src/commands/mod.rs line 136): the remaining buffer is joined and printed,
then the `flushed` flag is set and the condvar notified. -/
def logger_final_flush (buffer : List String) : String :=
  String.intercalate "\n" buffer

/-- Largest value of the Rust type `i16`, used by the `--slow` shorthand. -/
def i16MAX : Int := 32767

/-- Compression level selection in the `Compress` arm of `run`
(src/commands/mod.rs lines 183-189): `--fast` gives `Some(1)`, otherwise
`--slow` gives `Some(i16::MAX)`, otherwise the explicit `--level` value. -/
def selectLevel (fast slow : Bool) (level : Option Int) : Option Int :=
  if fast then some 1
  else if slow then some i16MAX
  else level

/-- Filesystem path: the display form together with its file-name component
(`Path::file_name`, which is `None` for paths such as `/` or ones ending
in `..`). -/
structure RPath where
  display : String
  fileName : Option String
deriving DecidableEq, Repr

/-- Path join (`output_dir.join(file_name)`), used to build the single-file
output path for decompression. -/
def RPath.join (dir : RPath) (name : String) : RPath :=
  { display := dir.display ++ "/" ++ name, fileName := some name }

/-- Display helper standing for `to_utf` from `utils` (module not in the
given sources): the textual rendering of a path. -/
def to_utf (p : RPath) : String := p.display

/-- One single quote character, used in the success message text. -/
def sq : String := String.singleton (Char.ofNat 39)

/-- Compression and archive formats, from `extension::CompressionFormat`
(spec section 3: archive containers Tar, Zip, SevenZip; stream codecs
Gzip, Bzip2, Lzma, Zstd, Lz4). -/
inductive CompressionFormat
  | Tar
  | Zip
  | SevenZip
  | Gzip
  | Bzip
  | Lzma
  | Zstd
  | Lz4
deriving DecidableEq, Repr

/-- Error values produced along the `run` control flow.  `NotFound` carries
the `error_title` built in the explicit-format decompression branch;
`FinalError` carries the title of a `FinalError::with_title` value;
`InvalidInput` is the legacy evaluator error variant; `External` stands for
any error value propagated out of a collaborator module. -/
inductive Error
  | NotFound (error_title : String)
  | FinalError (title : String)
  | InvalidInput
  | External (description : String)
deriving DecidableEq, Repr

/-- Interactive confirmation policy (`QuestionPolicy`). -/
inductive QuestionPolicy
  | AlwaysYes
  | AlwaysNo
  | Ask
deriving DecidableEq, Repr

/-- Outcome of `check::check_mime_type`, mirroring `std::ops::ControlFlow`:
`Break` means the user declined to proceed, `Continue` means proceed. -/
inductive MimeFlow
  | Break
  | Continue
deriving DecidableEq, Repr

/-- Observable effects of one execution of `run`, recorded in order. -/
inductive Effect
  | sent (msg : PrintMessage)
  | mimeCheck (path : String)
  | askedCreateFile (path : String)
  | deleteAttempt (path : String)
  | cleanupReport (path : String)
  | compressCall (level : Option Int)
  | decompressCall (input : String) (outputFilePath : String)
  | listCall (path : String)
  | createDirCall (dir : String)
  | barrierWait
deriving DecidableEq, Repr

/-- Results of the external collaborator functions called by `run`.  The
modules defining them (`check`, `extension`, `utils`, and the three
command implementations) are not part of the given sources, so only their
result values are modelled; `run` depends on them solely through these
results.  `check_mime_type` takes the formats by mutable reference, so its
successful result carries the possibly updated format list. -/
structure Env where
  parse_format : String → Except Error (List CompressionFormat)
  extensions_from_path : RPath → List CompressionFormat
  separate_known_extensions_from_name : RPath → String × List CompressionFormat
  check_invalid_compression_with_non_archive_format :
    List CompressionFormat → RPath → List RPath → Option String → Except Error Unit
  check_archive_formats_position : List CompressionFormat → RPath → Except Error Unit
  ask_to_create_file : RPath → QuestionPolicy → Except Error (Option Unit)
  check_mime_type : RPath → List CompressionFormat → QuestionPolicy →
    Except Error (MimeFlow × List CompressionFormat)
  compress_files : Option Int → Except Error Bool
  remove_file_or_dir : RPath → Except Error Unit
  check_missing_formats_when_decompressing :
    List RPath → List (List CompressionFormat) → Except Error Unit
  create_dir_if_non_existent : RPath → Except Error Unit
  decompress_file : RPath → List CompressionFormat → RPath → RPath → Except Error Unit
  check_for_non_archive_formats :
    List RPath → List (List CompressionFormat) → Except Error Unit
  list_archive_contents : RPath → List CompressionFormat → Except Error Unit

/-- Subcommands of the CLI (`cli::Subcommand`), restricted to the fields
`run` reads. -/
inductive Subcommand
  | Compress (files : List RPath) (output : RPath) (level : Option Int) (fast slow : Bool)
  | Decompress (files : List RPath) (output_dir : Option RPath)
  | List (archives : List RPath) (tree : Bool)
deriving Repr

/-- CLI arguments consumed by `run` (`CliArgs`): the subcommand plus the
global `--format` and `--quiet` flags. -/
structure CliArgs where
  cmd : Subcommand
  format : Option String
  quiet : Bool

/-- Way a `match args.cmd` arm finished: falling through to the code after
the match (sender drop and barrier wait), returning `Ok(())` early, or
returning an error early (`return` statements and the `?` operator). -/
inductive BranchOut
  | fellThrough
  | earlyOk
  | err (e : Error)
deriving DecidableEq, Repr

/-- The `Subcommand::Compress` arm of `run` (src/commands/mod.rs
lines 149-236): empty-input check, format resolution, the two structural
checks, the create-file prompt, level selection, the call to
`compress_files`, and the cleanup-on-failure logic that deletes the
partial output and reports a fatal cleanup failure when deletion fails.
The arm ends with `compress_result?`. -/
def runCompress (env : Env) (qp : QuestionPolicy) (format_flag : Option String)
    (files : List RPath) (output_path : RPath) (level : Option Int)
    (fast slow : Bool) : BranchOut × List Effect :=
  if files.isEmpty then
    (BranchOut.err (Error.FinalError "No files to compress"), [])
  else
    let fmtRes : Except Error (Option String × List CompressionFormat) :=
      match format_flag with
      | some formats =>
        match env.parse_format formats with
        | Except.error e => Except.error e
        | Except.ok parsed => Except.ok (some formats, parsed)
      | none => Except.ok (none, env.extensions_from_path output_path)
    match fmtRes with
    | Except.error e => (BranchOut.err e, [])
    | Except.ok (formats_from_flag, formats) =>
      match env.check_invalid_compression_with_non_archive_format
          formats output_path files formats_from_flag with
      | Except.error e => (BranchOut.err e, [])
      | Except.ok _ =>
        match env.check_archive_formats_position formats output_path with
        | Except.error e => (BranchOut.err e, [])
        | Except.ok _ =>
          match env.ask_to_create_file output_path qp with
          | Except.error e => (BranchOut.err e, [Effect.askedCreateFile output_path.display])
          | Except.ok none => (BranchOut.earlyOk, [Effect.askedCreateFile output_path.display])
          | Except.ok (some _) =>
            let lvl := selectLevel fast slow level
            let compress_result := env.compress_files lvl
            let afterTrace : List Effect :=
              match compress_result with
              | Except.ok true =>
                [Effect.sent
                  { contents := "Successfully compressed " ++ sq ++ to_utf output_path ++ sq ++ "."
                    accessible := true
                    level := MessageLevel.Info }]
              | _ =>
                Effect.deleteAttempt output_path.display ::
                  (match env.remove_file_or_dir output_path with
                   | Except.error _ => [Effect.cleanupReport output_path.display]
                   | Except.ok _ => [])
            let trace :=
              Effect.askedCreateFile output_path.display :: Effect.compressCall lvl :: afterTrace
            match compress_result with
            | Except.error e => (BranchOut.err e, trace)
            | Except.ok _ => (BranchOut.fellThrough, trace)

/-- Loop of the explicit `--format` decompression branch (src/commands/mod.rs
lines 243-249): each input must have a file-name component, which becomes
its output path; a path without one raises `Error::NotFound` with a
"does not have a file name" title. -/
def explicitOutputNames : List RPath → Except Error (List String)
  | [] => Except.ok []
  | path :: rest =>
    match path.fileName with
    | none =>
      Except.error (Error.NotFound (path.display ++ " does not have a file name"))
    | some name =>
      match explicitOutputNames rest with
      | Except.error e => Except.error e
      | Except.ok names => Except.ok (name :: names)

/-- Outcome of a format-inference pre-pass loop: all files resolved, a
declined mime-type prompt (which makes `run` return `Ok(())`), or a
propagated error. -/
inductive LoopRes (α : Type)
  | ok (val : α)
  | declined
  | failed (e : Error)

/-- Loop of the inferred-format decompression branch (src/commands/mod.rs
lines 251-263): for each input, split known extensions from the name, run
the mime-type consistency check (which may prompt), and collect the
residual base name with the (possibly updated) formats. -/
def inferDecompressLoop (env : Env) (qp : QuestionPolicy) :
    List RPath → LoopRes (List (String × List CompressionFormat)) × List Effect
  | [] => (LoopRes.ok [], [])
  | path :: rest =>
    let pathbase := (env.separate_known_extensions_from_name path).1
    let file_formats := (env.separate_known_extensions_from_name path).2
    match env.check_mime_type path file_formats qp with
    | Except.error e => (LoopRes.failed e, [Effect.mimeCheck path.display])
    | Except.ok (MimeFlow.Break, _) => (LoopRes.declined, [Effect.mimeCheck path.display])
    | Except.ok (MimeFlow.Continue, fmts) =>
      match inferDecompressLoop env qp rest with
      | (LoopRes.ok pairs, tr) =>
        (LoopRes.ok ((pathbase, fmts) :: pairs), Effect.mimeCheck path.display :: tr)
      | (LoopRes.declined, tr) => (LoopRes.declined, Effect.mimeCheck path.display :: tr)
      | (LoopRes.failed e, tr) => (LoopRes.failed e, Effect.mimeCheck path.display :: tr)

/-- The per-file decompression work (src/commands/mod.rs lines 277-292):
`try_for_each` over the zipped inputs, formats and output names, building
`output_file_path = output_dir.join(file_name)` and calling
`decompress_file`; the first error aborts the remaining items. -/
def decompressForEach (env : Env) (output_dir : RPath) :
    List (RPath × List CompressionFormat × String) → Except Error Unit × List Effect
  | [] => (Except.ok (), [])
  | (input_path, fmts, file_name) :: rest =>
    let output_file_path := output_dir.join file_name
    match env.decompress_file input_path fmts output_dir output_file_path with
    | Except.error e =>
      (Except.error e, [Effect.decompressCall input_path.display output_file_path.display])
    | Except.ok _ =>
      match decompressForEach env output_dir rest with
      | (r, tr) => (r, Effect.decompressCall input_path.display output_file_path.display :: tr)

/-- Tail of the `Subcommand::Decompress` arm after format resolution
(src/commands/mod.rs lines 266-292): the missing-formats check, output
directory resolution (defaulting to `.`), and the parallel `try_for_each`
decompression. -/
def decompressTail (env : Env) (files : List RPath)
    (formats : List (List CompressionFormat)) (output_paths : List String)
    (output_dir : Option RPath) : BranchOut × List Effect :=
  match env.check_missing_formats_when_decompressing files formats with
  | Except.error e => (BranchOut.err e, [])
  | Except.ok _ =>
    let dirRes : Except Error (RPath × List Effect) :=
      match output_dir with
      | some dir =>
        match env.create_dir_if_non_existent dir with
        | Except.error e => Except.error e
        | Except.ok _ => Except.ok (dir, [Effect.createDirCall dir.display])
      | none => Except.ok ({ display := ".", fileName := none }, [])
    match dirRes with
    | Except.error e => (BranchOut.err e, [])
    | Except.ok (dir, dtr) =>
      match decompressForEach env dir (files.zip (formats.zip output_paths)) with
      | (Except.error e, tr) => (BranchOut.err e, dtr ++ tr)
      | (Except.ok _, tr) => (BranchOut.fellThrough, dtr ++ tr)

/-- The `Subcommand::Decompress` arm of `run` (src/commands/mod.rs
lines 237-293). With an explicit `--format`, each output path is the
input's full file name and no mime-type check runs; otherwise formats are
inferred per file with the mime-type confirmation, whose decline returns
`Ok(())` from `run`. -/
def runDecompress (env : Env) (qp : QuestionPolicy) (format_flag : Option String)
    (files : List RPath) (output_dir : Option RPath) : BranchOut × List Effect :=
  match format_flag with
  | some fstr =>
    match env.parse_format fstr with
    | Except.error e => (BranchOut.err e, [])
    | Except.ok format =>
      match explicitOutputNames files with
      | Except.error e => (BranchOut.err e, [])
      | Except.ok output_paths =>
        decompressTail env files (files.map fun _ => format) output_paths output_dir
  | none =>
    match inferDecompressLoop env qp files with
    | (LoopRes.failed e, tr) => (BranchOut.err e, tr)
    | (LoopRes.declined, tr) => (BranchOut.earlyOk, tr)
    | (LoopRes.ok pairs, tr) =>
      match decompressTail env files (pairs.map Prod.snd) (pairs.map Prod.fst) output_dir with
      | (out, tr2) => (out, tr ++ tr2)

/-- Loop of the inferred-format listing branch (src/commands/mod.rs
lines 303-313): per archive, formats from the path plus the mime-type
consistency check. -/
def inferListLoop (env : Env) (qp : QuestionPolicy) :
    List RPath → LoopRes (List (List CompressionFormat)) × List Effect
  | [] => (LoopRes.ok [], [])
  | path :: rest =>
    let file_formats := env.extensions_from_path path
    match env.check_mime_type path file_formats qp with
    | Except.error e => (LoopRes.failed e, [Effect.mimeCheck path.display])
    | Except.ok (MimeFlow.Break, _) => (LoopRes.declined, [Effect.mimeCheck path.display])
    | Except.ok (MimeFlow.Continue, fmts) =>
      match inferListLoop env qp rest with
      | (LoopRes.ok fmtss, tr) => (LoopRes.ok (fmts :: fmtss), Effect.mimeCheck path.display :: tr)
      | (LoopRes.declined, tr) => (LoopRes.declined, Effect.mimeCheck path.display :: tr)
      | (LoopRes.failed e, tr) => (LoopRes.failed e, Effect.mimeCheck path.display :: tr)

/-- Flattening of the extension list into bare compression formats
(`extension::flatten_compression_formats`, module not in the given
sources); chains are modelled directly as format lists, so this is the
identity. -/
def flatten_compression_formats (fmts : List CompressionFormat) : List CompressionFormat := fmts

/-- The per-archive listing loop (src/commands/mod.rs lines 321-327):
`list_archive_contents` on each archive with its flattened formats, `?`
aborting on the first error. -/
def listForEach (env : Env) :
    List (RPath × List CompressionFormat) → Except Error Unit × List Effect
  | [] => (Except.ok (), [])
  | (archive_path, fmts) :: rest =>
    match env.list_archive_contents archive_path (flatten_compression_formats fmts) with
    | Except.error e => (Except.error e, [Effect.listCall archive_path.display])
    | Except.ok _ =>
      match listForEach env rest with
      | (r, tr) => (r, Effect.listCall archive_path.display :: tr)

/-- The `Subcommand::List` arm of `run` (src/commands/mod.rs lines
294-328). With an explicit `--format`, the parsed chain is replicated per
archive and no mime-type check runs; otherwise formats are inferred with
the mime-type confirmation, whose decline returns `Ok(())` from `run`.
Then the non-archive check runs and each archive is listed. -/
def runList (env : Env) (qp : QuestionPolicy) (format_flag : Option String)
    (files : List RPath) : BranchOut × List Effect :=
  match format_flag with
  | some fstr =>
    match env.parse_format fstr with
    | Except.error e => (BranchOut.err e, [])
    | Except.ok format =>
      match env.check_for_non_archive_formats files (files.map fun _ => format) with
      | Except.error e => (BranchOut.err e, [])
      | Except.ok _ =>
        match listForEach env (files.zip (files.map fun _ => format)) with
        | (Except.error e, tr) => (BranchOut.err e, tr)
        | (Except.ok _, tr) => (BranchOut.fellThrough, tr)
  | none =>
    match inferListLoop env qp files with
    | (LoopRes.failed e, tr) => (BranchOut.err e, tr)
    | (LoopRes.declined, tr) => (BranchOut.earlyOk, tr)
    | (LoopRes.ok fmtss, tr) =>
      match env.check_for_non_archive_formats files fmtss with
      | Except.error e => (BranchOut.err e, tr)
      | Except.ok _ =>
        match listForEach env (files.zip fmtss) with
        | (Except.error e, tr2) => (BranchOut.err e, tr ++ tr2)
        | (Except.ok _, tr2) => (BranchOut.fellThrough, tr ++ tr2)

/-- The `run` entry point (src/commands/mod.rs lines 71-341).  The
subcommand arm runs first; only an arm that falls through the `match`
reaches the final sender drop and the barrier wait on the `flushed`
flag (lines 331-340), recorded as `Effect.barrierWait`.  Early `return`
statements and `?` propagation leave `run` without that wait. -/
def run (env : Env) (args : CliArgs) (qp : QuestionPolicy) :
    Except Error Unit × List Effect :=
  let out :=
    match args.cmd with
    | Subcommand.Compress files output level fast slow =>
      runCompress env qp args.format files output level fast slow
    | Subcommand.Decompress files output_dir =>
      runDecompress env qp args.format files output_dir
    | Subcommand.List archives _tree =>
      runList env qp args.format archives
  match out with
  | (BranchOut.fellThrough, tr) => (Except.ok (), tr ++ [Effect.barrierWait])
  | (BranchOut.earlyOk, tr) => (Except.ok (), tr)
  | (BranchOut.err e, tr) => (Except.error e, tr)

/-- Modelled from the spec: per-format representable compression level
range ("A user-supplied compression level is clamped/mapped per format").
The `compress_files` implementation holding the concrete per-format ranges
is not part of the given sources; a range is an interval of levels the
format can represent. -/
structure LevelRange where
  lo : Int
  hi : Int
deriving DecidableEq, Repr

/-- Modelled from the spec: clamping of a requested level into a format's
representable range ("an explicit `--level` ... is ignored/clamped
per-format when out of range"). -/
def clampLevel (r : LevelRange) (l : Int) : Int :=
  max r.lo (min l r.hi)

/-- Extension pair of the legacy codebase (`extension.second_ext` is read
by `Evaluator::get_decompressor`; the defining `extension` module of that
era is not part of the given sources). -/
structure LegacyExtension where
  first_ext : Option CompressionFormat
  second_ext : CompressionFormat
deriving DecidableEq, Repr

/-- File record of the legacy codebase (`file::File`): a path and its
optional parsed extension. -/
structure LegacyFile where
  path : String
  extension : Option LegacyExtension
deriving DecidableEq, Repr

/-- The two decompressor implementations the legacy dispatcher can build. -/
inductive Decompressor
  | TarDecompressor
  | ZipDecompressor
deriving DecidableEq, Repr

/-- Result of a legacy dispatcher step: a value, an error, or reaching a
`todo!()` placeholder (which panics at runtime). -/
inductive EvalOut (α : Type)
  | ok (val : α)
  | err (e : Error)
  | todoPanic
deriving DecidableEq, Repr

/-- legacy command kinds (`cli::CommandKind`). -/
inductive CommandKind
  | Compression (files_to_compress : List LegacyFile)
  | Decompression (files_to_decompress : List LegacyFile)
deriving Repr

/-- legacy command (`cli::Command`): kind plus output file. -/
structure Command where
  kind : CommandKind
  output : Option LegacyFile
deriving Repr

/-- `Evaluator::get_decompressor` (src/evaluator.rs lines 22-43): errors
with `InvalidInput` when the file has no extension, dispatches on
`second_ext` to the tar or zip decompressor, and reaches `todo!()` for
every other format. -/
def Evaluator.get_decompressor (file : LegacyFile) : EvalOut Decompressor :=
  match file.extension with
  | none => EvalOut.err Error.InvalidInput
  | some extension =>
    match extension.second_ext with
    | CompressionFormat.Tar => EvalOut.ok Decompressor.TarDecompressor
    | CompressionFormat.Zip => EvalOut.ok Decompressor.ZipDecompressor
    | _ => EvalOut.todoPanic

/-- `Evaluator::decompress_file` (src/evaluator.rs lines 45-53):
builds the decompressor and runs it; `dec` carries the result of the
`Decompressor::decompress` implementations, which are not part of the
given sources. -/
def Evaluator.decompress_file (dec : Decompressor → LegacyFile → Except Error Unit)
    (file : LegacyFile) : EvalOut Unit :=
  match Evaluator.get_decompressor file with
  | EvalOut.err e => EvalOut.err e
  | EvalOut.todoPanic => EvalOut.todoPanic
  | EvalOut.ok decompressor =>
    match dec decompressor file with
    | Except.error e => EvalOut.err e
    | Except.ok _ => EvalOut.ok ()

/-- Decompression loop of `Evaluator::evaluate` (src/evaluator.rs lines
62-66): each file in order, stopping at the first error. -/
def Evaluator.evaluateDecompression (dec : Decompressor → LegacyFile → Except Error Unit) :
    List LegacyFile → EvalOut Unit
  | [] => EvalOut.ok ()
  | file :: rest =>
    match Evaluator.decompress_file dec file with
    | EvalOut.ok _ => Evaluator.evaluateDecompression dec rest
    | EvalOut.err e => EvalOut.err e
    | EvalOut.todoPanic => EvalOut.todoPanic

/-- `Evaluator::evaluate` (src/evaluator.rs lines 55-69): the compression
arm loops `todo!()` over the files (so any non-empty list panics and the
empty list falls through to `Ok(())`); the decompression arm decompresses
each file. -/
def Evaluator.evaluate (dec : Decompressor → LegacyFile → Except Error Unit)
    (cmd : Command) : EvalOut Unit :=
  match cmd.kind with
  | CommandKind.Compression files_to_compress =>
    match files_to_compress with
    | [] => EvalOut.ok ()
    | _ :: _ => EvalOut.todoPanic
  | CommandKind.Decompression files_to_decompress =>
    Evaluator.evaluateDecompression dec files_to_decompress

/-! Concrete sample data used to evaluate the model on closed inputs. -/

/-- Colors with empty escape strings, for concrete evaluation. -/
def colorsPlain : Colors := { YELLOW := "", ORANGE := "", RESET := "" }

/-- Sample warning message. -/
def warnMsg : PrintMessage :=
  { contents := "careful", accessible := true, level := MessageLevel.Warning }

/-- Sample info message; shown as "[INFO] x" outside accessible mode. -/
def infoMsg : PrintMessage :=
  { contents := "x", accessible := true, level := MessageLevel.Info }

/-- A full logger buffer (ten lines). -/
def buffer10 : List String :=
  ["m0", "m1", "m2", "m3", "m4", "m5", "m6", "m7", "m8", "m9"]

/-- Sample input path with a file name. -/
def pathFoo : RPath := { display := "foo.gz", fileName := some "foo.gz" }

/-- Second sample input path with a file name. -/
def pathBar : RPath := { display := "bar.gz", fileName := some "bar.gz" }

/-- Sample path with no file-name component (such as `/`). -/
def pathNoName : RPath := { display := "/", fileName := none }

/-- Sample compression output path. -/
def pathOut : RPath := { display := "out.tar.gz", fileName := some "out.tar.gz" }

/-- Environment in which every collaborator call succeeds. -/
def envBase : Env :=
  { parse_format := fun _ => Except.ok [CompressionFormat.Tar, CompressionFormat.Gzip]
    extensions_from_path := fun _ => [CompressionFormat.Gzip]
    separate_known_extensions_from_name := fun p => (p.display, [CompressionFormat.Gzip])
    check_invalid_compression_with_non_archive_format := fun _ _ _ _ => Except.ok ()
    check_archive_formats_position := fun _ _ => Except.ok ()
    ask_to_create_file := fun _ _ => Except.ok (some ())
    check_mime_type := fun _ fmts _ => Except.ok (MimeFlow.Continue, fmts)
    compress_files := fun _ => Except.ok true
    remove_file_or_dir := fun _ => Except.ok ()
    check_missing_formats_when_decompressing := fun _ _ => Except.ok ()
    create_dir_if_non_existent := fun _ => Except.ok ()
    decompress_file := fun _ _ _ _ => Except.ok ()
    check_for_non_archive_formats := fun _ _ => Except.ok ()
    list_archive_contents := fun _ _ => Except.ok () }

/-- Environment in which the mime-type confirmation prompt is declined. -/
def envDecline : Env :=
  { envBase with check_mime_type := fun _ _ _ => Except.ok (MimeFlow.Break, []) }

/-- Environment in which the create-file prompt is declined. -/
def envAskNo : Env :=
  { envBase with ask_to_create_file := fun _ _ => Except.ok none }

/-- Environment in which compression fails with an I/O error and the
partial-output deletion succeeds. -/
def envCompressErr : Env :=
  { envBase with compress_files := fun _ => Except.error (Error.External "io failure") }

/-- Environment in which compression is aborted (`Ok(false)`) and the
partial-output deletion itself fails. -/
def envAbortRemoveFail : Env :=
  { envBase with
    compress_files := fun _ => Except.ok false
    remove_file_or_dir := fun _ => Except.error (Error.External "permission denied") }

/-- Decompress invocation over two inferred-format inputs. -/
def argsDecompressTwo : CliArgs :=
  { cmd := Subcommand.Decompress [pathFoo, pathBar] none, format := none, quiet := false }

/-- List invocation over two inferred-format archives. -/
def argsListTwo : CliArgs :=
  { cmd := Subcommand.List [pathFoo, pathBar] false, format := none, quiet := false }

/-- Decompress invocation with an explicit `--format` over a path with no
file-name component. -/
def argsDecompressNoName : CliArgs :=
  { cmd := Subcommand.Decompress [pathNoName] none, format := some "tar.gz", quiet := false }

/-- Decompress invocation with an explicit `--format` over two named inputs. -/
def argsDecompressExplicit : CliArgs :=
  { cmd := Subcommand.Decompress [pathFoo, pathBar] none, format := some "tar.gz", quiet := false }

/-- List invocation with an explicit `--format` over two archives. -/
def argsListExplicit : CliArgs :=
  { cmd := Subcommand.List [pathFoo, pathBar] false, format := some "tar.gz", quiet := false }

/-- Compress invocation with inferred format and no level flags. -/
def argsCompress : CliArgs :=
  { cmd := Subcommand.Compress [pathFoo] pathOut none false false, format := none, quiet := false }

/-- Legacy file without an extension. -/
def fileNoExt : LegacyFile := { path := "data", extension := none }

/-- Legacy file whose second extension is Tar. -/
def fileTar : LegacyFile :=
  { path := "data.tar"
    extension := some { first_ext := none, second_ext := CompressionFormat.Tar } }

/-- Legacy file whose second extension is Zip. -/
def fileZip : LegacyFile :=
  { path := "data.zip"
    extension := some { first_ext := none, second_ext := CompressionFormat.Zip } }

/-- Legacy file whose second extension is Gzip (neither Tar nor Zip). -/
def fileGz : LegacyFile :=
  { path := "data.gz"
    extension := some { first_ext := none, second_ext := CompressionFormat.Gzip } }

/-- Legacy decompressor results in which every decompression succeeds. -/
def decOk : Decompressor → LegacyFile → Except Error Unit := fun _ _ => Except.ok ()

/-- Decidable equality for `Except`, so closed runs of the model can be
checked by evaluation. -/
def exceptDecEq {e a : Type} [DecidableEq e] [DecidableEq a] :
    (x y : Except e a) → Decidable (x = y)
  | Except.error e1, Except.error e2 =>
    if h : e1 = e2 then isTrue (by rw [h])
    else isFalse (fun hh => by cases hh; exact h rfl)
  | Except.error _, Except.ok _ => isFalse (fun hh => by cases hh)
  | Except.ok _, Except.error _ => isFalse (fun hh => by cases hh)
  | Except.ok a1, Except.ok a2 =>
    if h : a1 = a2 then isTrue (by rw [h])
    else isFalse (fun hh => by cases hh; exact h rfl)

instance {e a : Type} [DecidableEq e] [DecidableEq a] : DecidableEq (Except e a) :=
  exceptDecEq

/-! Theorems about the model. -/

/-- Claim C1: on the early return taken when the content-mismatch
confirmation prompt is declined, `run` returns `Ok(())` without ever
reaching the shutdown-barrier wait on the `flushed` flag; the barrier wait
happens only on the fall-through path (third conjunct).  This contradicts
the claim that every return path waits for the consumer thread's flush. -/
theorem c1_early_return_skips_barrier_wait :
    (run envDecline argsDecompressTwo QuestionPolicy.Ask).1 = Except.ok () ∧
    Effect.barrierWait ∉ (run envDecline argsDecompressTwo QuestionPolicy.Ask).2 ∧
    Effect.barrierWait ∈ (run envBase argsDecompressTwo QuestionPolicy.Ask).2 := by
  decide

/-- Claim C2: the consumer formatting function at a Warning message whose
contents are "careful".  The produced line is exactly the colored prefix
(full word "Warning:" in accessible mode, bracketed "[WARNING]" otherwise,
each followed by one space); contrary to the claim, the message contents do
not occur in the shown line. -/
theorem c2_warning_line_drops_contents :
    map_message colorsPlain true warnMsg = some "Warning: " ∧
    map_message colorsPlain false warnMsg = some "[WARNING] " ∧
    warnMsg.contents ≠ "" ∧
    ¬ List.IsInfix warnMsg.contents.data "Warning: ".data ∧
    ¬ List.IsInfix warnMsg.contents.data "[WARNING] ".data := by
  decide

/-- Claim C4, counterexample: a decompress run over two inputs in which the
mime-type prompt for the first input is declined returns `Ok` after the
first mime check, with no decompression performed at all — in particular
the second input `bar.gz` is not processed, contrary to the claim that
remaining input files are still processed. -/
theorem c4_decline_skips_remaining_counterexample :
    run envDecline argsDecompressTwo QuestionPolicy.Ask =
      (Except.ok (), [Effect.mimeCheck "foo.gz"]) ∧
    Effect.decompressCall "bar.gz" "./bar.gz" ∉
      (run envDecline argsDecompressTwo QuestionPolicy.Ask).2 ∧
    Effect.decompressCall "bar.gz" "./bar.gz" ∈
      (run envBase argsDecompressTwo QuestionPolicy.Ask).2 := by
  decide

/-- Claim C5, counterexample: with a full ten-line buffer and an incoming
message formatted as "[INFO] x", the flushed write is the ten buffered
lines joined with newlines with the new message appended directly to the
last line — it differs from the newline-join of all eleven messages, so
the new message does not appear on its own separate line. -/
theorem c5_flush_not_line_separated :
    (logger_step colorsPlain false buffer10 infoMsg).2 =
      some (String.intercalate "\n" buffer10 ++ "[INFO] x") ∧
    (logger_step colorsPlain false buffer10 infoMsg).2 ≠
      some (String.intercalate "\n" (buffer10 ++ ["[INFO] x"])) := by
  decide

/-- Claim C8, counterexample: a decompress run with an explicit `--format`
over the path `/` (which has no file-name component) fails with the
`NotFound` error carrying a "does not have a file name" title, not with
the `InvalidInput` error the claim names. -/
theorem c8_no_filename_error_counterexample :
    (run envBase argsDecompressNoName QuestionPolicy.Ask).1 =
      Except.error (Error.NotFound "/ does not have a file name") ∧
    (run envBase argsDecompressNoName QuestionPolicy.Ask).1 ≠
      Except.error Error.InvalidInput := by
  decide

/-- Claim C9: the legacy `Evaluator` dispatcher is incomplete scaffolding:
`get_decompressor` errors with `InvalidInput` on a file without an
extension, returns a decompressor exactly when the second extension is Tar
or Zip, and reaches the `todo!()` placeholder for every other format; and
`evaluate` on a compression command with at least one file reaches the
`todo!()` placeholder. -/
theorem c9_evaluator_scaffolding :
    (∀ file : LegacyFile, file.extension = none →
      Evaluator.get_decompressor file = EvalOut.err Error.InvalidInput) ∧
    (∀ (file : LegacyFile) (ext : LegacyExtension), file.extension = some ext →
      ext.second_ext = CompressionFormat.Tar →
      Evaluator.get_decompressor file = EvalOut.ok Decompressor.TarDecompressor) ∧
    (∀ (file : LegacyFile) (ext : LegacyExtension), file.extension = some ext →
      ext.second_ext = CompressionFormat.Zip →
      Evaluator.get_decompressor file = EvalOut.ok Decompressor.ZipDecompressor) ∧
    (∀ (file : LegacyFile) (ext : LegacyExtension), file.extension = some ext →
      ext.second_ext ≠ CompressionFormat.Tar → ext.second_ext ≠ CompressionFormat.Zip →
      Evaluator.get_decompressor file = EvalOut.todoPanic) ∧
    (∀ (dec : Decompressor → LegacyFile → Except Error Unit) (out : Option LegacyFile)
        (file : LegacyFile) (rest : List LegacyFile),
      Evaluator.evaluate dec { kind := CommandKind.Compression (file :: rest), output := out } =
        EvalOut.todoPanic) := by
  refine ⟨?_, ?_, ?_, ?_, ?_⟩
  · intro file h
    unfold Evaluator.get_decompressor
    rw [h]
  · intro file ext h h2
    simp only [Evaluator.get_decompressor, h, h2]
  · intro file ext h h2
    simp only [Evaluator.get_decompressor, h, h2]
  · intro file ext h h2 h3
    simp only [Evaluator.get_decompressor, h]
  · intro dec out file rest
    rfl

/-- Claim C9, witness: concrete evaluations of the dispatcher on files with
no extension, a Tar extension, a Zip extension, a Gzip extension, and of
`evaluate` on a one-file compression command. -/
theorem c9_evaluator_scaffolding_witness :
    Evaluator.get_decompressor fileNoExt = EvalOut.err Error.InvalidInput ∧
    Evaluator.get_decompressor fileTar = EvalOut.ok Decompressor.TarDecompressor ∧
    Evaluator.get_decompressor fileZip = EvalOut.ok Decompressor.ZipDecompressor ∧
    Evaluator.get_decompressor fileGz = EvalOut.todoPanic ∧
    Evaluator.evaluate decOk { kind := CommandKind.Compression [fileTar], output := none } =
      EvalOut.todoPanic :=
  ⟨c9_evaluator_scaffolding.1 fileNoExt rfl,
   c9_evaluator_scaffolding.2.1 fileTar
     { first_ext := none, second_ext := CompressionFormat.Tar } rfl rfl,
   c9_evaluator_scaffolding.2.2.1 fileZip
     { first_ext := none, second_ext := CompressionFormat.Zip } rfl rfl,
   c9_evaluator_scaffolding.2.2.2.1 fileGz
     { first_ext := none, second_ext := CompressionFormat.Gzip } rfl (by decide) (by decide),
   c9_evaluator_scaffolding.2.2.2.2 decOk none fileTar []⟩

/-- Claim C5, amended: when the buffer holds its full ten lines and a new
message arrives that formats to a shown line, the buffered lines joined
with newlines, with the new line appended directly (no separating
newline), are flushed as one write and the buffer is cleared. -/
theorem c5_full_buffer_flush (c : Colors) (am : Bool) (buffer : List String)
    (msg : PrintMessage) (m : String)
    (hb : buffer.length = BUFFER_SIZE)
    (hm : map_message c am msg = some m) :
    logger_step c am buffer msg =
      ([], some (String.intercalate "\n" buffer ++ m)) := by
  unfold logger_step
  rw [if_pos hb, hm]

/-- Claim C5, witness: the amended flush behavior evaluated on a concrete
full buffer and the message formatted as "[INFO] x". -/
theorem c5_full_buffer_flush_witness :
    buffer10.length = BUFFER_SIZE ∧
    map_message colorsPlain false infoMsg = some "[INFO] x" ∧
    logger_step colorsPlain false buffer10 infoMsg =
      ([], some (String.intercalate "\n" buffer10 ++ "[INFO] x")) :=
  ⟨by decide, by decide,
   c5_full_buffer_flush colorsPlain false buffer10 infoMsg "[INFO] x" (by decide) (by decide)⟩

/-- Helper: when some input path has no file-name component, the explicit
format pre-pass fails with the `NotFound` "does not have a file name"
error of the first such path. -/
theorem explicitOutputNames_fails (files : List RPath)
    (h : ∃ p ∈ files, p.fileName = none) :
    ∃ q ∈ files, q.fileName = none ∧
      explicitOutputNames files =
        Except.error (Error.NotFound (q.display ++ " does not have a file name")) := by
  induction files with
  | nil => simp at h
  | cons p rest ih =>
    cases hp : p.fileName with
    | none =>
      refine ⟨p, List.mem_cons_self p rest, hp, ?_⟩
      unfold explicitOutputNames
      rw [hp]
    | some name =>
      obtain ⟨q, hq, hqn⟩ := h
      rcases List.mem_cons.mp hq with h1 | h2
      · rw [h1, hp] at hqn
        cases hqn
      · obtain ⟨q2, hq2m, hq2n, heq⟩ := ih ⟨q, h2, hqn⟩
        refine ⟨q2, List.mem_cons_of_mem p hq2m, hq2n, ?_⟩
        unfold explicitOutputNames
        rw [hp, heq]

/-- Claim C8, amended: for a decompress invocation with an explicit
`--format` flag that parses, an input path with no file-name component
makes the operation fail with the `NotFound` error titled
"(path) does not have a file name" (not `InvalidInput`). -/
theorem c8_no_filename_notfound (env : Env) (qp : QuestionPolicy) (fstr : String)
    (fmts : List CompressionFormat) (files : List RPath) (odir : Option RPath)
    (quiet : Bool)
    (hparse : env.parse_format fstr = Except.ok fmts)
    (h : ∃ p ∈ files, p.fileName = none) :
    ∃ q ∈ files, q.fileName = none ∧
      (run env { cmd := Subcommand.Decompress files odir, format := some fstr, quiet := quiet }
          qp).1 =
        Except.error (Error.NotFound (q.display ++ " does not have a file name")) := by
  obtain ⟨q, hqm, hqn, heq⟩ := explicitOutputNames_fails files h
  refine ⟨q, hqm, hqn, ?_⟩
  simp only [run, runDecompress, hparse, heq]

/-- Claim C8, witness: the amended error evaluated on the path `/` with an
explicit format. -/
theorem c8_no_filename_notfound_witness :
    envBase.parse_format "tar.gz" = Except.ok [CompressionFormat.Tar, CompressionFormat.Gzip] ∧
    (∃ p ∈ [pathNoName], p.fileName = none) ∧
    ∃ q ∈ [pathNoName], q.fileName = none ∧
      (run envBase
          { cmd := Subcommand.Decompress [pathNoName] none, format := some "tar.gz",
            quiet := false } QuestionPolicy.Ask).1 =
        Except.error (Error.NotFound (q.display ++ " does not have a file name")) :=
  ⟨rfl, ⟨pathNoName, List.mem_cons_self pathNoName [], rfl⟩,
   c8_no_filename_notfound envBase QuestionPolicy.Ask "tar.gz"
     [CompressionFormat.Tar, CompressionFormat.Gzip] [pathNoName] none false rfl
     ⟨pathNoName, List.mem_cons_self pathNoName [], rfl⟩⟩

/-- Helper: the decompression format-inference pre-pass records only
mime-check effects. -/
theorem inferDecompressLoop_trace_mime (env : Env) (qp : QuestionPolicy) :
    ∀ files : List RPath, ∀ eff ∈ (inferDecompressLoop env qp files).2,
      ∃ p, eff = Effect.mimeCheck p := by
  intro files
  induction files with
  | nil =>
    intro eff h
    simp [inferDecompressLoop] at h
  | cons p rest ih =>
    intro eff h
    cases hc : env.check_mime_type p (env.separate_known_extensions_from_name p).2 qp with
    | error e =>
      simp only [inferDecompressLoop, hc, List.mem_singleton] at h
      exact ⟨p.display, h⟩
    | ok pr =>
      cases pr with
      | mk mf fmts2 =>
        cases mf with
        | Break =>
          simp only [inferDecompressLoop, hc, List.mem_singleton] at h
          exact ⟨p.display, h⟩
        | Continue =>
          rcases hrec : inferDecompressLoop env qp rest with ⟨res, tr⟩
          simp only [inferDecompressLoop, hc, hrec] at h
          have htr : ∀ eff2 ∈ tr, ∃ q, eff2 = Effect.mimeCheck q := by
            intro eff2 h2
            exact ih eff2 (by rw [hrec]; exact h2)
          cases res with
          | ok pairs =>
            rcases List.mem_cons.mp h with h1 | h2
            · exact ⟨p.display, h1⟩
            · exact htr eff h2
          | declined =>
            rcases List.mem_cons.mp h with h1 | h2
            · exact ⟨p.display, h1⟩
            · exact htr eff h2
          | failed e =>
            rcases List.mem_cons.mp h with h1 | h2
            · exact ⟨p.display, h1⟩
            · exact htr eff h2

/-- Helper: the listing format-inference pre-pass records only mime-check
effects. -/
theorem inferListLoop_trace_mime (env : Env) (qp : QuestionPolicy) :
    ∀ files : List RPath, ∀ eff ∈ (inferListLoop env qp files).2,
      ∃ p, eff = Effect.mimeCheck p := by
  intro files
  induction files with
  | nil =>
    intro eff h
    simp [inferListLoop] at h
  | cons p rest ih =>
    intro eff h
    cases hc : env.check_mime_type p (env.extensions_from_path p) qp with
    | error e =>
      simp only [inferListLoop, hc, List.mem_singleton] at h
      exact ⟨p.display, h⟩
    | ok pr =>
      cases pr with
      | mk mf fmts2 =>
        cases mf with
        | Break =>
          simp only [inferListLoop, hc, List.mem_singleton] at h
          exact ⟨p.display, h⟩
        | Continue =>
          rcases hrec : inferListLoop env qp rest with ⟨res, tr⟩
          simp only [inferListLoop, hc, hrec] at h
          have htr : ∀ eff2 ∈ tr, ∃ q, eff2 = Effect.mimeCheck q := by
            intro eff2 h2
            exact ih eff2 (by rw [hrec]; exact h2)
          cases res with
          | ok fmtss =>
            rcases List.mem_cons.mp h with h1 | h2
            · exact ⟨p.display, h1⟩
            · exact htr eff h2
          | declined =>
            rcases List.mem_cons.mp h with h1 | h2
            · exact ⟨p.display, h1⟩
            · exact htr eff h2
          | failed e =>
            rcases List.mem_cons.mp h with h1 | h2
            · exact ⟨p.display, h1⟩
            · exact htr eff h2

/-- Claim C4, amended: when the mime-type confirmation prompt is declined
during the format-inference pre-pass of a decompress or list invocation,
the whole `run` returns `Ok` right away with only mime-check effects in
its trace: no input is decompressed or listed, including the remaining
input files. -/
theorem c4_decline_aborts_whole_run (env : Env) (qp : QuestionPolicy) (files : List RPath)
    (odir : Option RPath) (quiet : Bool) (tree : Bool) (trD trL : List Effect) :
    (inferDecompressLoop env qp files = (LoopRes.declined, trD) →
      run env { cmd := Subcommand.Decompress files odir, format := none, quiet := quiet } qp =
        (Except.ok (), trD) ∧
      ∀ i o, Effect.decompressCall i o ∉ trD) ∧
    (inferListLoop env qp files = (LoopRes.declined, trL) →
      run env { cmd := Subcommand.List files tree, format := none, quiet := quiet } qp =
        (Except.ok (), trL) ∧
      ∀ p, Effect.listCall p ∉ trL) := by
  constructor
  · intro h
    constructor
    · simp only [run, runDecompress, h]
    · intro i o hmem
      obtain ⟨p, hp⟩ :=
        inferDecompressLoop_trace_mime env qp files (Effect.decompressCall i o)
          (by rw [h]; exact hmem)
      exact Effect.noConfusion hp
  · intro h
    constructor
    · simp only [run, runList, h]
    · intro p hmem
      obtain ⟨p2, hp⟩ :=
        inferListLoop_trace_mime env qp files (Effect.listCall p) (by rw [h]; exact hmem)
      exact Effect.noConfusion hp

/-- Claim C4, witness: the amended behavior evaluated on the two-input
decompress and list invocations where the first prompt is declined. -/
theorem c4_decline_aborts_whole_run_witness :
    (run envDecline argsDecompressTwo QuestionPolicy.Ask =
        (Except.ok (), [Effect.mimeCheck "foo.gz"]) ∧
      ∀ i o, Effect.decompressCall i o ∉ [Effect.mimeCheck "foo.gz"]) ∧
    (run envDecline argsListTwo QuestionPolicy.Ask =
        (Except.ok (), [Effect.mimeCheck "foo.gz"]) ∧
      ∀ p, Effect.listCall p ∉ [Effect.mimeCheck "foo.gz"]) :=
  ⟨(c4_decline_aborts_whole_run envDecline QuestionPolicy.Ask [pathFoo, pathBar] none false
      false [Effect.mimeCheck "foo.gz"] [Effect.mimeCheck "foo.gz"]).1 rfl,
   (c4_decline_aborts_whole_run envDecline QuestionPolicy.Ask [pathFoo, pathBar] none false
      false [Effect.mimeCheck "foo.gz"] [Effect.mimeCheck "foo.gz"]).2 rfl⟩

/-- Claim C6: whenever an interactive prompt is answered "no" — the
create-file prompt before compression (first conjunct), or the
content-mismatch prompt during decompression (second) or listing (third)
— `run` returns `Ok` and propagates no error for the decline itself. -/
theorem c6_declines_return_ok (env : Env) (qp : QuestionPolicy)
    (files : List RPath) (output_path : RPath) (level : Option Int)
    (fast slow quiet tree : Bool) (p : RPath) (rest : List RPath)
    (odir : Option RPath) (fmtsD fmtsL : List CompressionFormat) :
    (files ≠ [] →
      env.check_invalid_compression_with_non_archive_format
          (env.extensions_from_path output_path) output_path files none = Except.ok () →
      env.check_archive_formats_position (env.extensions_from_path output_path) output_path =
        Except.ok () →
      env.ask_to_create_file output_path qp = Except.ok none →
      (run env
          { cmd := Subcommand.Compress files output_path level fast slow, format := none, quiet := quiet }
          qp).1 = Except.ok ()) ∧
    (env.check_mime_type p (env.separate_known_extensions_from_name p).2 qp =
        Except.ok (MimeFlow.Break, fmtsD) →
      (run env
          { cmd := Subcommand.Decompress (p :: rest) odir, format := none, quiet := quiet }
          qp).1 = Except.ok ()) ∧
    (env.check_mime_type p (env.extensions_from_path p) qp = Except.ok (MimeFlow.Break, fmtsL) →
      (run env
          { cmd := Subcommand.List (p :: rest) tree, format := none, quiet := quiet }
          qp).1 = Except.ok ()) := by
  refine ⟨?_, ?_, ?_⟩
  · intro h1 h2 h3 h4
    have hne : files.isEmpty = false := by
      cases files with
      | nil => exact absurd rfl h1
      | cons a t => rfl
    simp only [run, runCompress, hne, h2, h3, h4]
    simp
  · intro hc
    simp only [run, runDecompress, inferDecompressLoop, hc]
  · intro hc
    simp only [run, runList, inferListLoop, hc]

/-- Claim C6, witness: concrete runs in which the create-file prompt and
the mime-type prompt are declined, each returning `Ok`. -/
theorem c6_declines_return_ok_witness :
    (run envAskNo argsCompress QuestionPolicy.Ask).1 = Except.ok () ∧
    (run envDecline argsDecompressTwo QuestionPolicy.Ask).1 = Except.ok () ∧
    (run envDecline argsListTwo QuestionPolicy.Ask).1 = Except.ok () :=
  ⟨(c6_declines_return_ok envAskNo QuestionPolicy.Ask [pathFoo] pathOut none false false false
      false pathFoo [] none [] []).1 (by decide) rfl rfl rfl,
   (c6_declines_return_ok envDecline QuestionPolicy.Ask [pathFoo] pathOut none false false false
      false pathFoo [pathBar] none [] []).2.1 rfl,
   (c6_declines_return_ok envDecline QuestionPolicy.Ask [pathFoo] pathOut none false false false
      false pathFoo [pathBar] none [] []).2.2 rfl⟩

/-- Claim C3: when `compress_files` returns an error or `Ok(false)` after
the output writer was created, `run` attempts to delete the output path;
the value `run` returns is determined by the compression result alone (the
original error is returned unchanged, and an aborted `Ok(false)` yields
`Ok`), whether or not the deletion succeeds; a deletion failure only adds
the fatal cleanup report to the trace. -/
theorem c3_compress_cleanup_preserves_error (env : Env) (qp : QuestionPolicy)
    (files : List RPath) (output_path : RPath) (level : Option Int)
    (fast slow quiet : Bool) (e d : Error)
    (h1 : files ≠ [])
    (h2 : env.check_invalid_compression_with_non_archive_format
        (env.extensions_from_path output_path) output_path files none = Except.ok ())
    (h3 : env.check_archive_formats_position (env.extensions_from_path output_path) output_path =
      Except.ok ())
    (h4 : env.ask_to_create_file output_path qp = Except.ok (some ())) :
    (env.compress_files (selectLevel fast slow level) = Except.error e →
      env.remove_file_or_dir output_path = Except.ok () →
      run env
          { cmd := Subcommand.Compress files output_path level fast slow, format := none, quiet := quiet }
          qp =
        (Except.error e,
          [Effect.askedCreateFile output_path.display,
            Effect.compressCall (selectLevel fast slow level),
            Effect.deleteAttempt output_path.display])) ∧
    (env.compress_files (selectLevel fast slow level) = Except.error e →
      env.remove_file_or_dir output_path = Except.error d →
      run env
          { cmd := Subcommand.Compress files output_path level fast slow, format := none, quiet := quiet }
          qp =
        (Except.error e,
          [Effect.askedCreateFile output_path.display,
            Effect.compressCall (selectLevel fast slow level),
            Effect.deleteAttempt output_path.display,
            Effect.cleanupReport output_path.display])) ∧
    (env.compress_files (selectLevel fast slow level) = Except.ok false →
      env.remove_file_or_dir output_path = Except.ok () →
      run env
          { cmd := Subcommand.Compress files output_path level fast slow, format := none, quiet := quiet }
          qp =
        (Except.ok (),
          [Effect.askedCreateFile output_path.display,
            Effect.compressCall (selectLevel fast slow level),
            Effect.deleteAttempt output_path.display,
            Effect.barrierWait])) ∧
    (env.compress_files (selectLevel fast slow level) = Except.ok false →
      env.remove_file_or_dir output_path = Except.error d →
      run env
          { cmd := Subcommand.Compress files output_path level fast slow, format := none, quiet := quiet }
          qp =
        (Except.ok (),
          [Effect.askedCreateFile output_path.display,
            Effect.compressCall (selectLevel fast slow level),
            Effect.deleteAttempt output_path.display,
            Effect.cleanupReport output_path.display,
            Effect.barrierWait])) := by
  have hne : files.isEmpty = false := by
    cases files with
    | nil => exact absurd rfl h1
    | cons a t => rfl
  refine ⟨?_, ?_, ?_, ?_⟩ <;>
    · intro hcomp hrem
      simp only [run, runCompress, hne, h2, h3, h4, hcomp, hrem]
      simp

/-- Claim C3, witness: concrete compress runs in which compression fails
with deletion succeeding, and in which compression is aborted with
deletion failing. -/
theorem c3_compress_cleanup_preserves_error_witness :
    run envCompressErr argsCompress QuestionPolicy.Ask =
      (Except.error (Error.External "io failure"),
        [Effect.askedCreateFile "out.tar.gz", Effect.compressCall none,
          Effect.deleteAttempt "out.tar.gz"]) ∧
    run envAbortRemoveFail argsCompress QuestionPolicy.Ask =
      (Except.ok (),
        [Effect.askedCreateFile "out.tar.gz", Effect.compressCall none,
          Effect.deleteAttempt "out.tar.gz", Effect.cleanupReport "out.tar.gz",
          Effect.barrierWait]) :=
  ⟨(c3_compress_cleanup_preserves_error envCompressErr QuestionPolicy.Ask [pathFoo] pathOut
      none false false false (Error.External "io failure") (Error.External "io failure")
      (by decide) rfl rfl rfl).1 rfl rfl,
   (c3_compress_cleanup_preserves_error envAbortRemoveFail QuestionPolicy.Ask [pathFoo] pathOut
      none false false false (Error.External "permission denied")
      (Error.External "permission denied") (by decide) rfl rfl rfl).2.2.2 rfl rfl⟩

/-- Claim C7: `--fast` makes the level handed to the pipeline `Some(1)` and
`--slow` makes it `Some(i16::MAX)`, the level actually passed to
`compress_files` being recorded in the run trace; with neither flag the
explicit `--level` value is passed.  Against a per-format representable
range (modelled from the spec, with levels between 1 and `i16::MAX`),
clamping maps the `--fast` value to the format's minimum and the `--slow`
value to the format's maximum, and any explicit level lands inside the
representable range. -/
theorem c7_level_flags (env : Env) (qp : QuestionPolicy) (files : List RPath)
    (output_path : RPath) (level : Option Int) (fast slow quiet : Bool) (r : LevelRange)
    (h1 : files ≠ [])
    (h2 : env.check_invalid_compression_with_non_archive_format
        (env.extensions_from_path output_path) output_path files none = Except.ok ())
    (h3 : env.check_archive_formats_position (env.extensions_from_path output_path) output_path =
      Except.ok ())
    (h4 : env.ask_to_create_file output_path qp = Except.ok (some ()))
    (hlo : 1 ≤ r.lo) (hord : r.lo ≤ r.hi) (hhi : r.hi ≤ i16MAX) :
    (selectLevel true slow level = some 1 ∧ clampLevel r 1 = r.lo) ∧
    (selectLevel false true level = some i16MAX ∧ clampLevel r i16MAX = r.hi) ∧
    (selectLevel false false level = level) ∧
    (∀ l : Int, r.lo ≤ clampLevel r l ∧ clampLevel r l ≤ r.hi) ∧
    Effect.compressCall (selectLevel fast slow level) ∈
      (run env
          { cmd := Subcommand.Compress files output_path level fast slow, format := none, quiet := quiet }
          qp).2 := by
  have hne : files.isEmpty = false := by
    cases files with
    | nil => exact absurd rfl h1
    | cons a t => rfl
  refine ⟨⟨rfl, ?_⟩, ⟨rfl, ?_⟩, rfl, ?_, ?_⟩
  · unfold clampLevel
    rw [min_eq_left (le_trans hlo hord), max_eq_left hlo]
  · unfold clampLevel
    rw [min_eq_right hhi, max_eq_right hord]
  · intro l
    exact ⟨le_max_left _ _, max_le hord (min_le_right _ _)⟩
  · cases hcomp : env.compress_files (selectLevel fast slow level) with
    | error e2 =>
      cases hrem : env.remove_file_or_dir output_path with
      | error d2 => simp [run, runCompress, hne, h2, h3, h4, hcomp, hrem]
      | ok u => simp [run, runCompress, hne, h2, h3, h4, hcomp, hrem]
    | ok b =>
      cases b with
      | true => simp [run, runCompress, hne, h2, h3, h4, hcomp]
      | false =>
        cases hrem : env.remove_file_or_dir output_path with
        | error d2 => simp [run, runCompress, hne, h2, h3, h4, hcomp, hrem]
        | ok u => simp [run, runCompress, hne, h2, h3, h4, hcomp, hrem]

/-- Claim C7, witness: the level selection and clamping evaluated against
the concrete representable range 1..9 and a concrete compress run. -/
theorem c7_level_flags_witness :
    ((selectLevel true false none = some 1 ∧ clampLevel { lo := 1, hi := 9 } 1 = 1) ∧
      (selectLevel false true none = some i16MAX ∧ clampLevel { lo := 1, hi := 9 } i16MAX = 9) ∧
      (selectLevel false false none = none) ∧
      (∀ l : Int, 1 ≤ clampLevel { lo := 1, hi := 9 } l ∧ clampLevel { lo := 1, hi := 9 } l ≤ 9) ∧
      Effect.compressCall (selectLevel false false none) ∈
        (run envBase argsCompress QuestionPolicy.Ask).2) :=
  c7_level_flags envBase QuestionPolicy.Ask [pathFoo] pathOut none false false false
    { lo := 1, hi := 9 } (by decide) rfl rfl rfl (by decide) (by decide) (by decide)

/-- Helper: the decompression work loop records only decompress-call
effects. -/
theorem decompressForEach_trace (env : Env) (dir : RPath) :
    ∀ items, ∀ eff ∈ (decompressForEach env dir items).2,
      ∃ i o, eff = Effect.decompressCall i o := by
  intro items
  induction items with
  | nil =>
    intro eff h
    simp [decompressForEach] at h
  | cons it rest ih =>
    intro eff h
    rcases it with ⟨input, fmts, name⟩
    cases hd : env.decompress_file input fmts dir (dir.join name) with
    | error e =>
      simp only [decompressForEach, hd, List.mem_singleton] at h
      exact ⟨input.display, (dir.join name).display, h⟩
    | ok u =>
      rcases hrec : decompressForEach env dir rest with ⟨res, tr⟩
      simp only [decompressForEach, hd, hrec] at h
      rcases List.mem_cons.mp h with h1 | h2
      · exact ⟨input.display, (dir.join name).display, h1⟩
      · exact ih eff (by rw [hrec]; exact h2)

/-- Helper: the listing work loop records only list-call effects. -/
theorem listForEach_trace (env : Env) :
    ∀ items, ∀ eff ∈ (listForEach env items).2, ∃ a2, eff = Effect.listCall a2 := by
  intro items
  induction items with
  | nil =>
    intro eff h
    simp [listForEach] at h
  | cons it rest ih =>
    intro eff h
    rcases it with ⟨archive, fmts⟩
    cases hl : env.list_archive_contents archive (flatten_compression_formats fmts) with
    | error e =>
      simp only [listForEach, hl, List.mem_singleton] at h
      exact ⟨archive.display, h⟩
    | ok u =>
      rcases hrec : listForEach env rest with ⟨res, tr⟩
      simp only [listForEach, hl, hrec] at h
      rcases List.mem_cons.mp h with h1 | h2
      · exact ⟨archive.display, h1⟩
      · exact ih eff (by rw [hrec]; exact h2)

/-- Helper: the tail of the decompression arm records only
directory-creation and decompress-call effects. -/
theorem decompressTail_trace (env : Env) (files : List RPath)
    (formats : List (List CompressionFormat)) (output_paths : List String)
    (odir : Option RPath) :
    ∀ eff ∈ (decompressTail env files formats output_paths odir).2,
      (∃ d2, eff = Effect.createDirCall d2) ∨ ∃ i o, eff = Effect.decompressCall i o := by
  intro eff h
  cases hcm : env.check_missing_formats_when_decompressing files formats with
  | error e =>
    simp only [decompressTail, hcm] at h
    simp at h
  | ok u =>
    cases odir with
    | none =>
      rcases hfe : decompressForEach env { display := ".", fileName := none }
          (files.zip (formats.zip output_paths)) with ⟨res, tr⟩
      have htr : ∀ eff2 ∈ tr, ∃ i o, eff2 = Effect.decompressCall i o := by
        intro eff2 h2
        exact decompressForEach_trace env _ _ eff2 (by rw [hfe]; exact h2)
      cases res with
      | error e =>
        simp only [decompressTail, hcm, hfe] at h
        exact Or.inr (htr eff (by simpa using h))
      | ok v =>
        simp only [decompressTail, hcm, hfe] at h
        exact Or.inr (htr eff (by simpa using h))
    | some dir =>
      cases hcd : env.create_dir_if_non_existent dir with
      | error e =>
        simp only [decompressTail, hcm, hcd] at h
        simp at h
      | ok u2 =>
        rcases hfe : decompressForEach env dir (files.zip (formats.zip output_paths)) with
          ⟨res, tr⟩
        have htr : ∀ eff2 ∈ tr, ∃ i o, eff2 = Effect.decompressCall i o := by
          intro eff2 h2
          exact decompressForEach_trace env _ _ eff2 (by rw [hfe]; exact h2)
        cases res with
        | error e =>
          simp only [decompressTail, hcm, hcd, hfe] at h
          rcases (by simpa using h : eff = Effect.createDirCall dir.display ∨ eff ∈ tr) with
            h1 | h2
          · exact Or.inl ⟨dir.display, h1⟩
          · exact Or.inr (htr eff h2)
        | ok v =>
          simp only [decompressTail, hcm, hcd, hfe] at h
          rcases (by simpa using h : eff = Effect.createDirCall dir.display ∨ eff ∈ tr) with
            h1 | h2
          · exact Or.inl ⟨dir.display, h1⟩
          · exact Or.inr (htr eff h2)

/-- Helper: the explicit-format decompression arm never records a
mime-check effect. -/
theorem runDecompress_explicit_no_mime (env : Env) (qp : QuestionPolicy) (fstr : String)
    (files : List RPath) (odir : Option RPath) (p : String) :
    Effect.mimeCheck p ∉ (runDecompress env qp (some fstr) files odir).2 := by
  intro h
  cases hpf : env.parse_format fstr with
  | error e =>
    simp only [runDecompress, hpf] at h
    simp at h
  | ok format =>
    cases hon : explicitOutputNames files with
    | error e =>
      simp only [runDecompress, hpf, hon] at h
      simp at h
    | ok names =>
      simp only [runDecompress, hpf, hon] at h
      rcases decompressTail_trace env files (files.map fun _ => format) names odir
          (Effect.mimeCheck p) h with ⟨d2, hd⟩ | ⟨i, o, hd⟩ <;>
        exact Effect.noConfusion hd

/-- Helper: the explicit-format listing arm never records a mime-check
effect. -/
theorem runList_explicit_no_mime (env : Env) (qp : QuestionPolicy) (fstr : String)
    (files : List RPath) (p : String) :
    Effect.mimeCheck p ∉ (runList env qp (some fstr) files).2 := by
  intro h
  cases hpf : env.parse_format fstr with
  | error e =>
    simp only [runList, hpf] at h
    simp at h
  | ok format =>
    cases hna : env.check_for_non_archive_formats files (files.map fun _ => format) with
    | error e =>
      simp only [runList, hpf, hna] at h
      simp at h
    | ok u =>
      rcases hfe : listForEach env (files.zip (files.map fun _ => format)) with ⟨res, tr⟩
      have htr : Effect.mimeCheck p ∈ tr → False := by
        intro h2
        obtain ⟨a2, hd⟩ := listForEach_trace env _ (Effect.mimeCheck p) (by rw [hfe]; exact h2)
        exact Effect.noConfusion hd
      cases res with
      | error e =>
        simp only [runList, hpf, hna, hfe] at h
        exact htr h
      | ok v =>
        simp only [runList, hpf, hna, hfe] at h
        exact htr h

/-- Helper: when every input has a file-name component, the explicit
format pre-pass outputs exactly the full file names, with no suffix
stripped. -/
theorem explicitOutputNames_full_names :
    ∀ files : List RPath, (∀ p ∈ files, p.fileName ≠ none) →
      explicitOutputNames files = Except.ok (files.map fun p => p.fileName.getD "") := by
  intro files
  induction files with
  | nil =>
    intro h
    rfl
  | cons p rest ih =>
    intro h
    have hp := h p (List.mem_cons_self p rest)
    cases hpn : p.fileName with
    | none => exact absurd hpn hp
    | some name =>
      have hr := ih fun q hq => h q (List.mem_cons_of_mem p hq)
      unfold explicitOutputNames
      rw [hpn, hr]
      simp [hpn]

/-- Claim C10: with an explicit `--format` flag, neither the decompress arm
nor the list arm ever records a mime-check effect (so no content-mismatch
prompt can occur and the question policy is not consulted during format
resolution), and the derived output name of each decompressed input is its
full file name with no suffix stripped. -/
theorem c10_explicit_format_no_mime_check (env : Env) (qp : QuestionPolicy) (fstr : String)
    (files : List RPath) (odir : Option RPath) (tree quiet : Bool) :
    (∀ p, Effect.mimeCheck p ∉
      (run env { cmd := Subcommand.Decompress files odir, format := some fstr, quiet := quiet }
        qp).2) ∧
    (∀ p, Effect.mimeCheck p ∉
      (run env { cmd := Subcommand.List files tree, format := some fstr, quiet := quiet }
        qp).2) ∧
    ((∀ p ∈ files, p.fileName ≠ none) →
      explicitOutputNames files = Except.ok (files.map fun p => p.fileName.getD "")) := by
  refine ⟨?_, ?_, explicitOutputNames_full_names files⟩
  · intro p hmem
    rcases hb : runDecompress env qp (some fstr) files odir with ⟨b, tr⟩
    have hnm : Effect.mimeCheck p ∉ tr := by
      have hh := runDecompress_explicit_no_mime env qp fstr files odir p
      rw [hb] at hh
      exact hh
    cases b with
    | fellThrough =>
      simp only [run, hb] at hmem
      rcases List.mem_append.mp hmem with h1 | h2
      · exact hnm h1
      · simp at h2
    | earlyOk =>
      simp only [run, hb] at hmem
      exact hnm hmem
    | err e =>
      simp only [run, hb] at hmem
      exact hnm hmem
  · intro p hmem
    rcases hb : runList env qp (some fstr) files with ⟨b, tr⟩
    have hnm : Effect.mimeCheck p ∉ tr := by
      have hh := runList_explicit_no_mime env qp fstr files p
      rw [hb] at hh
      exact hh
    cases b with
    | fellThrough =>
      simp only [run, hb] at hmem
      rcases List.mem_append.mp hmem with h1 | h2
      · exact hnm h1
      · simp at h2
    | earlyOk =>
      simp only [run, hb] at hmem
      exact hnm hmem
    | err e =>
      simp only [run, hb] at hmem
      exact hnm hmem

/-- Claim C10, witness: the explicit-format guarantees evaluated on the
two-input decompress and list invocations. -/
theorem c10_explicit_format_no_mime_check_witness :
    Effect.mimeCheck "foo.gz" ∉ (run envBase argsDecompressExplicit QuestionPolicy.Ask).2 ∧
    Effect.mimeCheck "foo.gz" ∉ (run envBase argsListExplicit QuestionPolicy.Ask).2 ∧
    explicitOutputNames [pathFoo, pathBar] =
      Except.ok ([pathFoo, pathBar].map fun p => p.fileName.getD "") :=
  ⟨(c10_explicit_format_no_mime_check envBase QuestionPolicy.Ask "tar.gz" [pathFoo, pathBar]
      none false false).1 "foo.gz",
   (c10_explicit_format_no_mime_check envBase QuestionPolicy.Ask "tar.gz" [pathFoo, pathBar]
      none false false).2.1 "foo.gz",
   (c10_explicit_format_no_mime_check envBase QuestionPolicy.Ask "tar.gz" [pathFoo, pathBar]
      none false false).2.2 (by decide)⟩

end Ouch
